import Mathlib

/-!
Verification development for the HackRx query-orchestration pipeline.

A shallow embedding of the core of the repository:
- `DocumentProcessor.create_chunks`, `clean_text`, `download_document`,
  `process_document` (src/app/services/document_processor.py),
- `LLMService.generate_answer` with its bounded retry (src/app/services/llm_service.py),
- `QueryEngine.process_query`, `_ensure_document_processed`,
  `_process_single_question` (src/app/services/query_engine.py),
- the relevant settings defaults (src/app/core/config.py).

External collaborators (HTTP client, PDF/DOCX/HTML parsers, embedding
provider, vector index, OpenAI chat endpoint, the Python string hash and
the clock) are modelled as oracle fields of an `Env` record.  Python
exceptions are modelled by `Except String`; calls to the collaborators are
recorded in an event trace so that claims about which backends are invoked
can be stated.
-/

namespace HackRx

/-- Bytes of a downloaded document body (abstract; only the length matters). -/
abbrev ByteContent := List Nat

/-- An embedding vector (abstract numeric contents). -/
abbrev Emb := List Int

/-- Python str.split() and the regex \s used in clean_text treat these as
whitespace (ASCII fragment; the unicode extras never appear in our inputs). -/
def isWs (c : Char) : Bool :=
  c = ' ' || c = '\t' || c = '\n' || c = '\r'

/-- Python ' '.join(words): words joined by single spaces. -/
def joinWords : List String → String
  | [] => ""
  | [w] => w
  | w :: ws => w ++ " " ++ joinWords ws

/-- Helper for wordsBy: cur is the current in-progress word, reversed. -/
def wordsByAux : List Char → List Char → List (List Char)
  | cur, [] => if cur.isEmpty then [] else [cur.reverse]
  | cur, c :: cs =>
    if isWs c then
      if cur.isEmpty then wordsByAux [] cs
      else cur.reverse :: wordsByAux [] cs
    else wordsByAux (c :: cur) cs

/-- Split a character list into maximal runs of non-whitespace characters,
discarding whitespace: the character-level core of Python str.split(). -/
def wordsBy (l : List Char) : List (List Char) :=
  wordsByAux [] l

/-- Python text.split(): list of whitespace-separated words, no empties. -/
def pySplit (s : String) : List String :=
  (wordsBy s.toList).map List.asString

/-- Helper for splitSlash: cur is the current in-progress segment,
reversed.  Empty segments are kept, as Python str.split(sep) does. -/
def splitSlashAux : List Char → List Char → List (List Char)
  | cur, [] => [cur.reverse]
  | cur, c :: cs =>
    if c = '/' then cur.reverse :: splitSlashAux [] cs
    else splitSlashAux (c :: cur) cs

/-- Python s.split('/'): the '/'-separated segments, empties kept. -/
def splitSlash (s : String) : List String :=
  (splitSlashAux [] s.toList).map List.asString

/-- Python s.lower() (ASCII fragment). -/
def pyLower (s : String) : String :=
  (s.toList.map Char.toLower).asString

/-- Python s.endswith(suffix). -/
def pyEndsWith (s suf : String) : Bool :=
  suf.toList.isSuffixOf s.toList

/-- Python range(start, stop, step) for step greater than 0, written with
explicit fuel (the fuel is immaterial once it is at least the element count;
range with step 0 raises in Python and is never called that way here). -/
def rangeStepAux : Nat → Nat → Nat → Nat → List Nat
  | 0, _, _, _ => []
  | fuel + 1, start, stop, step =>
    if start < stop then start :: rangeStepAux fuel (start + step) stop step
    else []

/-- Python range(0, stop, step). -/
def rangeStep (stop step : Nat) : List Nat :=
  rangeStepAux stop 0 stop step

/-- The metadata dict that process_document passes to create_chunks. -/
structure DocMeta where
  source_url : String
  document_type : String
  filename : String
deriving Repr, DecidableEq

/-- app/models/document.DocumentChunk as used by the pipeline: content plus
the metadata fields create_chunks writes, and an embedding that is absent
until the controller assigns it. -/
structure DocumentChunk where
  content : String
  meta : DocMeta
  chunk_index : Nat
  start_word : Nat
  end_word : Nat
  embedding : Option Emb := none
deriving Repr, DecidableEq

/-- A placeholder chunk for total list indexing. -/
def dummyChunk : DocumentChunk :=
  { content := "", meta := { source_url := "", document_type := "", filename := "" },
    chunk_index := 0, start_word := 0, end_word := 0 }

/-- The loop body of create_chunks: take words[i : i + chunk_size], join
with spaces, and append a chunk (with chunk_index = running count,
start_word = i, end_word = min(i + chunk_size, len(words))) whenever the
joined text is non-empty. -/
def create_chunks_step (chunk_size : Nat) (meta : DocMeta) (words : List String)
    (chunks : List DocumentChunk) (i : Nat) : List DocumentChunk :=
  let chunk_words := (words.drop i).take chunk_size
  let chunk_text := joinWords chunk_words
  if chunk_text ≠ "" then
    chunks ++ [{ content := chunk_text, meta := meta,
                 chunk_index := chunks.length, start_word := i,
                 end_word := min (i + chunk_size) words.length }]
  else chunks

/-- DocumentProcessor.create_chunks: iterate i over range(0, len(words),
chunk_size - chunk_overlap) and run the loop body.  The word list is the
caller's text.split(). -/
def create_chunks (chunk_size chunk_overlap : Nat) (meta : DocMeta)
    (words : List String) : List DocumentChunk :=
  (rangeStep words.length (chunk_size - chunk_overlap)).foldl
    (create_chunks_step chunk_size meta words) []

/-- Helper for collapseWs: the flag records whether the previous character
was whitespace (and has already emitted its single space). -/
def collapseWsAux : Bool → List Char → List Char
  | _, [] => []
  | prevWs, c :: cs =>
    if isWs c then
      if prevWs then collapseWsAux true cs
      else ' ' :: collapseWsAux true cs
    else c :: collapseWsAux false cs

/-- re.sub(r'\s+', ' ', text): replace each maximal whitespace run by one
space. -/
def collapseWs (l : List Char) : List Char :=
  collapseWsAux false l

/-- The character class kept by clean_text's second regex:
[\w\s.,;:!?\-()\[\]{}"'/] (ASCII fragment of \w). -/
def allowedChar (c : Char) : Bool :=
  c.isAlphanum || c = '_' || isWs c ||
  c = '.' || c = ',' || c = ';' || c = ':' || c = '!' || c = '?' ||
  c = '-' || c = '(' || c = ')' || c = '[' || c = ']' ||
  c = '\x7b' || c = '\x7d' || c = '"' || c = '\'' || c = '/'

/-- Python s.strip(): drop leading and trailing whitespace. -/
def pyStrip (s : String) : String :=
  ((s.toList.dropWhile isWs).reverse.dropWhile isWs).reverse.asString

/-- DocumentProcessor.clean_text: collapse whitespace runs, drop characters
outside the allowed class, re-join the split words with single spaces, and
strip. -/
def clean_text (s : String) : String :=
  let s1 := (collapseWs s.toList).asString
  let s2 := (s1.toList.filter allowedChar).asString
  pyStrip (joinWords (pySplit s2))

/-- The settings fields the pipeline reads, with the defaults of
app/core/config.py. -/
structure Settings where
  CHUNK_SIZE : Nat := 400
  CHUNK_OVERLAP : Nat := 50
  MAX_FILE_SIZE_MB : Nat := 10
deriving Repr

/-- Settings.max_file_size_bytes: MAX_FILE_SIZE_MB * 1024 * 1024. -/
def Settings.max_file_size_bytes (s : Settings) : Nat :=
  s.MAX_FILE_SIZE_MB * 1024 * 1024

/-- The process-wide settings singleton (all defaults). -/
def settings : Settings := {}

/-- One scored search hit returned by the vector store (scores abstracted to
integers; the pipeline never inspects them). -/
structure SearchResult where
  content : String
  score : Int
  meta : List (String × String)
deriving Repr, DecidableEq

/-- The dict LLMService.generate_answer resolves to (string-valued fields
only; the engine reads just the answer field). -/
abbrev GenResponse := List (String × String)

/-- Python dict.get(key, default) on a string-valued dict. -/
def dictGet (d : GenResponse) (k dflt : String) : String :=
  match d.lookup k with
  | some v => v
  | none => dflt

/-- An HTTP response as seen by download_document: status code, the
optional content-length header, and the body. -/
structure HttpResponse where
  status : Nat
  contentLength : Option Nat
  content : ByteContent
deriving Repr, DecidableEq

/-- One call to an external collaborator, recorded in the trace. -/
inductive Event
  | download (url : String)
  | extract (kind : String)
  | embed (texts : List String)
  | indexAdd (n : Nat)
  | searchEv (top_k : Nat)
  | generate (question : String)
deriving Repr, DecidableEq

/-- The external collaborators: HTTP client, URL parser, per-format text
extractors, utf-8 decoding, embedding provider, vector store, one LLM
attempt (network call plus response parsing), the Python string hash, and
the clock.  Each fallible one returns Except, standing for a possible
Python exception. -/
structure Env where
  httpGet : String → Except String HttpResponse
  urlPath : String → String
  extractPdf : ByteContent → Except String String
  extractDocx : ByteContent → Except String String
  extractHtml : ByteContent → Except String String
  decodeUtf8 : ByteContent → String
  getEmbeddings : List String → Except String (List Emb)
  addDocuments : List DocumentChunk → Except String Unit
  search : Emb → Nat → Except String (List SearchResult)
  llmAttempt : String → List SearchResult → Nat → Except String GenResponse
  hashF : String → Int
  now : Nat

/-- DocumentProcessor.download_document: GET the URL (network failure
raises), raise_for_status on a non-2xx status, then read the
content-length header (0 when absent) and raise when it exceeds
max_file_size_bytes; otherwise return the body. -/
def download_document (env : Env) (stg : Settings) (url : String) :
    Except String ByteContent × List Event :=
  match env.httpGet url with
  | .error e => (.error e, [.download url])
  | .ok resp =>
    if resp.status < 200 || 300 ≤ resp.status then
      (.error "HTTP status error", [.download url])
    else
      let content_length := resp.contentLength.getD 0
      if stg.max_file_size_bytes < content_length then
        (.error "File size exceeds maximum allowed size", [.download url])
      else (.ok resp.content, [.download url])

/-- DocumentProcessor.process_document: download, pick the extractor from
the lowercased last path segment of the URL, extract (plain text decodes
with errors ignored and cannot fail), clean the text, and chunk it with the
configured size and overlap. -/
def process_document (env : Env) (stg : Settings) (url : String) :
    Except String (List DocumentChunk) × List Event :=
  match download_document env stg url with
  | (.error e, ev1) => (.error e, ev1)
  | (.ok content, ev1) =>
    let filename := pyLower ((splitSlash (env.urlPath url)).getLastD "")
    let (tres, doc_type, ev2) :=
      if pyEndsWith filename ".pdf" then
        (env.extractPdf content, "pdf", [Event.extract "pdf"])
      else if pyEndsWith filename ".docx" then
        (env.extractDocx content, "docx", [Event.extract "docx"])
      else if pyEndsWith filename ".html" || pyEndsWith filename ".eml" then
        (env.extractHtml content, "email", [Event.extract "email"])
      else (Except.ok (env.decodeUtf8 content), "text", ([] : List Event))
    match tres with
    | .error e => (.error e, ev1 ++ ev2)
    | .ok rawText =>
      let text := clean_text rawText
      let meta : DocMeta :=
        { source_url := url, document_type := doc_type, filename := filename }
      let chunks := create_chunks stg.CHUNK_SIZE stg.CHUNK_OVERLAP meta (pySplit text)
      (.ok chunks, ev1 ++ ev2)

/-- The zip loop of _ensure_document_processed: attach the i-th embedding to
the i-th chunk; chunks beyond the embedding list keep embedding none (zip
truncates). -/
def assignEmbeddings : List DocumentChunk → List Emb → List DocumentChunk
  | [], _ => []
  | cs, [] => cs
  | c :: cs, e :: es => { c with embedding := some e } :: assignEmbeddings cs es

/-- The tenacity retry loop of LLMService.generate_answer: up to the given
number of attempts; a success returns at once, and the last attempt's
failure propagates as the exception. -/
def retryCall (f : Nat → Except String GenResponse) : Nat → Nat → Except String GenResponse
  | _, 0 => .error "retry budget exhausted"
  | i, 1 => f i
  | i, n + 2 =>
    match f i with
    | .ok v => .ok v
    | .error _ => retryCall f (i + 1) (n + 1)

/-- LLMService.generate_answer: the per-attempt body (OpenAI call plus
response parsing) under retry(stop_after_attempt(5)). -/
def generate_answer (env : Env) (question : String) (context : List SearchResult) :
    Except String GenResponse :=
  retryCall (env.llmAttempt question context) 0 5

/-- QueryEngine state: document_cache maps a URL to (chunk count,
processed_at); answer_cache maps hash(question) to the answer.  Python dict
assignment is modelled by consing, and lookup by first match, so keys are
never removed. -/
structure EngineState where
  document_cache : List (String × Nat × Nat)
  answer_cache : List (Int × String)
deriving Repr, DecidableEq

/-- QueryEngine._ensure_document_processed: return at once on a
document_cache hit; otherwise process the document, embed all chunk texts
in one batch, attach the embeddings, add the chunks to the vector store,
and only then record the URL in the document_cache with the chunk count
and timestamp.  Any failure propagates and leaves the state unchanged. -/
def ensure_document_processed (env : Env) (stg : Settings) (st : EngineState)
    (document_url : String) : Except String Unit × EngineState × List Event :=
  match st.document_cache.lookup document_url with
  | some _ => (.ok (), st, [])
  | none =>
    match process_document env stg document_url with
    | (.error e, ev1) => (.error e, st, ev1)
    | (.ok chunks, ev1) =>
      let chunk_texts := chunks.map (fun c => c.content)
      match env.getEmbeddings chunk_texts with
      | .error e => (.error e, st, ev1 ++ [.embed chunk_texts])
      | .ok embeddings =>
        let chunks2 := assignEmbeddings chunks embeddings
        match env.addDocuments chunks2 with
        | .error e => (.error e, st, ev1 ++ [.embed chunk_texts, .indexAdd chunks2.length])
        | .ok _ =>
          (.ok (),
           { st with document_cache :=
               (document_url, chunks.length, env.now) :: st.document_cache },
           ev1 ++ [.embed chunk_texts, .indexAdd chunks2.length])

/-- QueryEngine._process_single_question: answer_cache hit returns at once;
otherwise embed the question, search with top_k = 2, short-circuit to the
no-results sentinel, or call the generator and read its answer field with
the default sentinel; cache and return the answer.  Any exception in the
try block is caught and an Error string is returned without caching. -/
def process_single_question (env : Env) (st : EngineState) (question : String) :
    String × EngineState × List Event :=
  let cache_key := env.hashF question
  match st.answer_cache.lookup cache_key with
  | some a => (a, st, [])
  | none =>
    match env.getEmbeddings [question] with
    | .error e => ("Error: " ++ e, st, [.embed [question]])
    | .ok [] => ("Error: list index out of range", st, [.embed [question]])
    | .ok (question_embedding :: _) =>
      match env.search question_embedding 2 with
      | .error e => ("Error: " ++ e, st, [.embed [question], .searchEv 2])
      | .ok search_results =>
        if search_results.isEmpty then
          let answer := "Information not available in the document"
          (answer, { st with answer_cache := (cache_key, answer) :: st.answer_cache },
           [.embed [question], .searchEv 2])
        else
          match generate_answer env question search_results with
          | .error e =>
            ("Error: " ++ e, st, [.embed [question], .searchEv 2, .generate question])
          | .ok llm_response =>
            let answer := dictGet llm_response "answer" "Unable to generate answer"
            (answer, { st with answer_cache := (cache_key, answer) :: st.answer_cache },
             [.embed [question], .searchEv 2, .generate question])

/-- The sequential question loop of process_query, threading the engine
state and collecting answers in input order. -/
def processQuestions (env : Env) :
    EngineState → List String → List String × EngineState × List Event
  | st, [] => ([], st, [])
  | st, q :: qs =>
    let r := process_single_question env st q
    let rest := processQuestions env r.2.1 qs
    (r.1 :: rest.1, rest.2.1, r.2.2 ++ rest.2.2)

/-- QueryEngine.process_query: ensure the document is processed, then
answer each question in order; if ingestion raises, catch and return one
fallback error string per question. -/
def process_query (env : Env) (stg : Settings) (st : EngineState)
    (document_url : String) (questions : List String) :
    List String × EngineState × List Event :=
  match ensure_document_processed env stg st document_url with
  | (.error e, st1, ev) =>
    (questions.map (fun _ => "Error processing question: " ++ e), st1, ev)
  | (.ok _, st1, ev) =>
    let r := processQuestions env st1 questions
    (r.1, r.2.1, ev ++ r.2.2)

/-! ## Chunker characterization -/

/-- The chunk that create_chunks emits for window start i as chunk number j. -/
def mkChunk (chunk_size : Nat) (meta : DocMeta) (words : List String)
    (j i : Nat) : DocumentChunk :=
  { content := joinWords ((words.drop i).take chunk_size), meta := meta,
    chunk_index := j, start_word := i,
    end_word := min (i + chunk_size) words.length }

/-- The chunk list produced from a list of window starts, numbering from j. -/
def chunksFrom (chunk_size : Nat) (meta : DocMeta) (words : List String) :
    Nat → List Nat → List DocumentChunk
  | _, [] => []
  | j, i :: is => mkChunk chunk_size meta words j i ::
      chunksFrom chunk_size meta words (j + 1) is

theorem chunksFrom_length (cs : Nat) (m : DocMeta) (w : List String) :
    ∀ (is : List Nat) (j : Nat), (chunksFrom cs m w j is).length = is.length := by
  intro is
  induction is with
  | nil => intro j; rfl
  | cons i is ih => intro j; simp [chunksFrom, ih]

theorem chunksFrom_getD (cs : Nat) (m : DocMeta) (w : List String) :
    ∀ (is : List Nat) (j0 k : Nat), k < is.length →
      (chunksFrom cs m w j0 is).getD k dummyChunk = mkChunk cs m w (j0 + k) (is.getD k 0) := by
  intro is
  induction is with
  | nil => intro j0 k hk; simp at hk
  | cons i is ih =>
    intro j0 k hk
    cases k with
    | zero => simp [chunksFrom]
    | succ k =>
      simp only [chunksFrom, List.getD_cons_succ]
      rw [ih (j0 + 1) k (by simpa using hk)]
      congr 1
      omega

theorem rangeStepAux_length (step : Nat) (hstep : 1 ≤ step) :
    ∀ (fuel start stop : Nat), stop - start ≤ fuel →
      (rangeStepAux fuel start stop step).length = (stop - start + step - 1) / step := by
  intro fuel
  induction fuel with
  | zero =>
    intro start stop h
    have hss : stop - start = 0 := by omega
    simp [rangeStepAux, hss, Nat.div_eq_of_lt (by omega : step - 1 < step)]
  | succ fuel ih =>
    intro start stop h
    by_cases hlt : start < stop
    · have hrec := ih (start + step) stop (by omega)
      simp only [rangeStepAux, if_pos hlt, List.length_cons, hrec]
      have hd : 1 ≤ stop - start := by omega
      have hr : stop - start + step - 1 = (stop - start - 1) + step := by omega
      rw [hr, Nat.add_div_right _ (by omega : 0 < step)]
      by_cases hds : step ≤ stop - start
      · have : stop - (start + step) + step - 1 = stop - start - 1 := by omega
        rw [this]
      · have h0 : stop - (start + step) = 0 := by omega
        have h1 : (stop - start - 1) / step = 0 :=
          Nat.div_eq_of_lt (by omega)
        rw [h0, h1]
        simp [Nat.div_eq_of_lt (by omega : step - 1 < step)]
    · have hss : stop - start = 0 := by omega
      simp [rangeStepAux, if_neg hlt, hss,
        Nat.div_eq_of_lt (by omega : step - 1 < step)]

theorem rangeStepAux_getD (step : Nat) :
    ∀ (fuel start stop k : Nat), k < (rangeStepAux fuel start stop step).length →
      (rangeStepAux fuel start stop step).getD k 0 = start + k * step := by
  intro fuel
  induction fuel with
  | zero => intro start stop k hk; simp [rangeStepAux] at hk
  | succ fuel ih =>
    intro start stop k hk
    by_cases hlt : start < stop
    · simp only [rangeStepAux, if_pos hlt] at hk ⊢
      cases k with
      | zero => simp
      | succ k =>
        simp only [List.getD_cons_succ]
        rw [ih (start + step) stop k (by simpa using hk)]
        have : (k + 1) * step = k * step + step := by ring
        omega
    · simp [rangeStepAux, if_neg hlt] at hk

theorem rangeStepAux_mem_lt (step : Nat) :
    ∀ (fuel start stop i : Nat), i ∈ rangeStepAux fuel start stop step → i < stop := by
  intro fuel
  induction fuel with
  | zero => intro start stop i hi; simp [rangeStepAux] at hi
  | succ fuel ih =>
    intro start stop i hi
    by_cases hlt : start < stop
    · simp only [rangeStepAux, if_pos hlt, List.mem_cons] at hi
      rcases hi with rfl | hi
      · exact hlt
      · exact ih _ _ _ hi
    · simp [rangeStepAux, if_neg hlt] at hi

theorem strLength_pos_of_ne (w : String) (hw : w ≠ "") : 0 < w.length := by
  obtain ⟨data⟩ := w
  cases data with
  | nil => exact absurd rfl hw
  | cons c cs => simp [String.length]

theorem joinWords_ne_empty (w : String) (ws : List String) (hw : w ≠ "") :
    joinWords (w :: ws) ≠ "" := by
  have hw0 : 0 < w.length := strLength_pos_of_ne w hw
  cases ws with
  | nil => simpa [joinWords] using hw
  | cons x xs =>
    simp only [joinWords]
    intro h
    have hlen := congrArg String.length h
    simp only [String.length_append] at hlen
    have h1 : (" " : String).length = 1 := rfl
    have h0 : ("" : String).length = 0 := rfl
    rw [h1, h0] at hlen
    omega

theorem window_ne_empty (cs : Nat) (hcs : 1 ≤ cs) (words : List String)
    (hw : ∀ w ∈ words, w ≠ "") (i : Nat) (hi : i < words.length) :
    joinWords ((words.drop i).take cs) ≠ "" := by
  have hlen : 0 < (words.drop i).length := by
    rw [List.length_drop]; omega
  obtain ⟨w, rest, hwr⟩ :=
    List.exists_cons_of_ne_nil (List.ne_nil_of_length_pos hlen)
  have hwmem : w ∈ words := by
    have hmem : w ∈ words.drop i := by
      rw [hwr]; exact List.mem_cons_self _ _
    exact List.mem_of_mem_drop hmem
  rw [hwr]
  cases cs with
  | zero => omega
  | succ n =>
    rw [List.take_succ_cons]
    exact joinWords_ne_empty w _ (hw w hwmem)

theorem create_chunks_step_eq (cs : Nat) (m : DocMeta) (words : List String)
    (acc : List DocumentChunk) (i : Nat)
    (h : joinWords ((words.drop i).take cs) ≠ "") :
    create_chunks_step cs m words acc i = acc ++ [mkChunk cs m words acc.length i] := by
  simp [create_chunks_step, mkChunk, h]

theorem foldl_step_eq (cs : Nat) (m : DocMeta) (words : List String) :
    ∀ (is : List Nat) (acc : List DocumentChunk),
      (∀ i ∈ is, joinWords ((words.drop i).take cs) ≠ "") →
      is.foldl (create_chunks_step cs m words) acc =
        acc ++ chunksFrom cs m words acc.length is := by
  intro is
  induction is with
  | nil => intro acc h; simp [chunksFrom]
  | cons i is ih =>
    intro acc h
    have hi := h i (List.mem_cons_self _ _)
    rw [List.foldl_cons, create_chunks_step_eq cs m words acc i hi,
      ih _ (fun j hj => h j (List.mem_cons_of_mem _ hj))]
    simp [chunksFrom]

theorem create_chunks_eq (cs co : Nat) (m : DocMeta) (words : List String)
    (hco : co < cs) (hw : ∀ w ∈ words, w ≠ "") :
    create_chunks cs co m words =
      chunksFrom cs m words 0 (rangeStep words.length (cs - co)) := by
  have hg : ∀ i ∈ rangeStep words.length (cs - co),
      joinWords ((words.drop i).take cs) ≠ "" := by
    intro i hi
    exact window_ne_empty cs (by omega) words hw i
      (rangeStepAux_mem_lt _ _ _ _ _ hi)
  rw [create_chunks, foldl_step_eq cs m words _ [] hg]
  rfl

/-- The number of chunks is the ceiling of the word count over the window
step chunk_size - chunk_overlap (no ceiling cap exists). -/
theorem create_chunks_length (cs co : Nat) (m : DocMeta) (words : List String)
    (hco : co < cs) (hw : ∀ w ∈ words, w ≠ "") :
    (create_chunks cs co m words).length =
      (words.length + (cs - co) - 1) / (cs - co) := by
  rw [create_chunks_eq cs co m words hco hw, chunksFrom_length,
    rangeStep, rangeStepAux_length (cs - co) (by omega) _ 0 _ (by omega)]
  simp

/-- Chunk number k of create_chunks starts at word k * (chunk_size -
chunk_overlap) and carries the joined window of chunk_size words from
there. -/
theorem create_chunks_getD (cs co : Nat) (m : DocMeta) (words : List String)
    (hco : co < cs) (hw : ∀ w ∈ words, w ≠ "") (k : Nat)
    (hk : k < (create_chunks cs co m words).length) :
    (create_chunks cs co m words).getD k dummyChunk =
      mkChunk cs m words k (k * (cs - co)) := by
  rw [create_chunks_eq cs co m words hco hw] at hk ⊢
  have hk2 : k < (rangeStep words.length (cs - co)).length := by
    rwa [chunksFrom_length] at hk
  rw [chunksFrom_getD cs m words _ 0 k hk2, rangeStep,
    rangeStepAux_getD (cs - co) _ 0 _ k hk2]
  simp

/-! ## The space-joined list of n copies of "w", as a character list -/

/-- Characters of joinWords (List.replicate n "w"). -/
def wsp : Nat → List Char
  | 0 => []
  | 1 => ['w']
  | n + 2 => 'w' :: ' ' :: wsp (n + 1)

theorem joinWords_cons_cons (w x : String) (xs : List String) :
    joinWords (w :: x :: xs) = w ++ " " ++ joinWords (x :: xs) := rfl

theorem joinWords_replicate_w_toList :
    ∀ n : Nat, (joinWords (List.replicate n "w")).toList = wsp n
  | 0 => rfl
  | 1 => rfl
  | n + 2 => by
    have ih := joinWords_replicate_w_toList (n + 1)
    have h2 : List.replicate (n + 2) "w" = "w" :: "w" :: List.replicate n "w" := by
      simp [List.replicate_succ]
    have h1 : List.replicate (n + 1) "w" = "w" :: List.replicate n "w" := by
      simp [List.replicate_succ]
    rw [h2, joinWords_cons_cons, ← h1, wsp]
    have happ : ∀ s t : String, (s ++ t).toList = s.toList ++ t.toList := by
      intro s t; exact String.data_append s t
    rw [happ, happ, ih]
    rfl

theorem isWs_w : isWs 'w' = false := by decide

theorem isWs_space : isWs ' ' = true := by decide

theorem collapse_wsp : ∀ (n : Nat) (b : Bool), collapseWsAux b (wsp n) = wsp n
  | 0, b => rfl
  | 1, b => by simp [wsp, collapseWsAux, isWs_w]
  | n + 2, b => by
    have ih := collapse_wsp (n + 1) true
    simp [wsp, collapseWsAux, isWs_w, isWs_space, ih]

theorem filter_wsp : ∀ n : Nat, (wsp n).filter allowedChar = wsp n
  | 0 => rfl
  | 1 => by simp [wsp]; decide
  | n + 2 => by
    have ih := filter_wsp (n + 1)
    simp only [wsp, List.filter_cons]
    rw [show allowedChar 'w' = true from by decide,
      show allowedChar ' ' = true from by decide]
    simp [ih]

theorem words_wsp : ∀ n : Nat, wordsByAux [] (wsp n) = List.replicate n ['w']
  | 0 => rfl
  | 1 => rfl
  | n + 2 => by
    have ih := words_wsp (n + 1)
    simp [wsp, wordsByAux, isWs_w, isWs_space, ih, List.replicate_succ]

theorem wsp_append : ∀ n : Nat, wsp (n + 2) = wsp (n + 1) ++ [' ', 'w']
  | 0 => rfl
  | n + 1 => by
    have ih := wsp_append n
    show 'w' :: ' ' :: wsp (n + 2) = ('w' :: ' ' :: wsp (n + 1)) ++ [' ', 'w']
    rw [ih]
    rfl

theorem dropWhile_wsp : ∀ n : Nat, (wsp n).dropWhile isWs = wsp n
  | 0 => rfl
  | 1 => by simp [wsp, List.dropWhile_cons, isWs_w]
  | n + 2 => by simp [wsp, List.dropWhile_cons, isWs_w]

theorem dropWhile_wsp_reverse : ∀ n : Nat, (wsp n).reverse.dropWhile isWs = (wsp n).reverse
  | 0 => rfl
  | 1 => by simp [wsp, List.dropWhile_cons, isWs_w]
  | n + 2 => by
    rw [wsp_append n, List.reverse_append]
    simp [List.dropWhile_cons, isWs_w]

theorem pyStrip_join_replicate_w (n : Nat) :
    pyStrip (joinWords (List.replicate n "w")) = joinWords (List.replicate n "w") := by
  rw [pyStrip, joinWords_replicate_w_toList n, dropWhile_wsp n,
    dropWhile_wsp_reverse n, List.reverse_reverse,
    ← joinWords_replicate_w_toList n, String.asString_toList]

theorem pySplit_join_replicate_w (n : Nat) :
    pySplit (joinWords (List.replicate n "w")) = List.replicate n "w" := by
  rw [pySplit, joinWords_replicate_w_toList n, wordsBy, words_wsp n,
    List.map_replicate]
  rfl

theorem clean_join_replicate_w (n : Nat) :
    clean_text (joinWords (List.replicate n "w")) = joinWords (List.replicate n "w") := by
  rw [clean_text]
  simp only [joinWords_replicate_w_toList n, collapseWs, collapse_wsp n false,
    List.toList_asString, filter_wsp n]
  rw [show (wsp n).asString = joinWords (List.replicate n "w") from by
    rw [← joinWords_replicate_w_toList n, String.asString_toList]]
  rw [pySplit_join_replicate_w n, pyStrip_join_replicate_w n]

theorem pySplit_clean_join_replicate_w (n : Nat) :
    pySplit (clean_text (joinWords (List.replicate n "w"))) = List.replicate n "w" := by
  rw [clean_join_replicate_w n, pySplit_join_replicate_w n]

/-! ## Engine lemmas -/

theorem processQuestions_length (env : Env) :
    ∀ (qs : List String) (st : EngineState),
      (processQuestions env st qs).1.length = qs.length := by
  intro qs
  induction qs with
  | nil => intro st; rfl
  | cons q qs ih => intro st; simp [processQuestions, ih]

theorem processQuestions_getD (env : Env) :
    ∀ (qs : List String) (st : EngineState) (i : Nat), i < qs.length →
      (processQuestions env st qs).1.getD i "" =
        (process_single_question env
          (processQuestions env st (qs.take i)).2.1 (qs.getD i "")).1 := by
  intro qs
  induction qs with
  | nil => intro st i hi; simp at hi
  | cons q qs ih =>
    intro st i hi
    cases i with
    | zero => rfl
    | succ i =>
      have := ih (process_single_question env st q).2.1 i (by simpa using hi)
      simpa [processQuestions] using this

theorem psq_document_cache (env : Env) (st : EngineState) (q : String) :
    (process_single_question env st q).2.1.document_cache = st.document_cache := by
  simp only [process_single_question]
  repeat' split <;> try rfl

theorem processQuestions_document_cache (env : Env) :
    ∀ (qs : List String) (st : EngineState),
      (processQuestions env st qs).2.1.document_cache = st.document_cache := by
  intro qs
  induction qs with
  | nil => intro st; rfl
  | cons q qs ih =>
    intro st
    simp only [processQuestions]
    rw [ih, psq_document_cache]

theorem psq_events_mem (env : Env) (st : EngineState) (q : String) :
    ∀ ev ∈ (process_single_question env st q).2.2,
      ev = Event.embed [q] ∨ ev = Event.searchEv 2 ∨ ev = Event.generate q := by
  intro ev hev
  simp only [process_single_question] at hev
  cases hl : st.answer_cache.lookup (env.hashF q) with
  | some a => simp [hl] at hev
  | none =>
    simp only [hl] at hev
    cases hge : env.getEmbeddings [q] with
    | error e => simp [hge] at hev; tauto
    | ok l =>
      cases l with
      | nil => simp [hge] at hev; tauto
      | cons qe tl =>
        simp only [hge] at hev
        cases hs : env.search qe 2 with
        | error e => simp [hs] at hev; tauto
        | ok rs =>
          simp only [hs] at hev
          by_cases hrs : rs.isEmpty
          · simp [hrs] at hev; tauto
          · simp only [hrs, if_neg, Bool.false_eq_true, not_false_eq_true,
              if_false] at hev
            cases hga : generate_answer env q rs with
            | error e => simp [hga] at hev; tauto
            | ok resp => simp [hga] at hev; tauto

theorem processQuestions_events (env : Env) :
    ∀ (qs : List String) (st : EngineState) (ev : Event),
      ev ∈ (processQuestions env st qs).2.2 →
      ∃ q ∈ qs, ev = Event.embed [q] ∨ ev = Event.searchEv 2 ∨ ev = Event.generate q := by
  intro qs
  induction qs with
  | nil => intro st ev hev; simp [processQuestions] at hev
  | cons q qs ih =>
    intro st ev hev
    simp only [processQuestions, List.mem_append] at hev
    rcases hev with hev | hev
    · exact ⟨q, List.mem_cons_self _ _, psq_events_mem env st q ev hev⟩
    · obtain ⟨p, hp, hor⟩ := ih _ _ hev
      exact ⟨p, List.mem_cons_of_mem _ hp, hor⟩

theorem psq_cache_miss_embeds (env : Env) (st : EngineState) (q : String)
    (h : st.answer_cache.lookup (env.hashF q) = none) :
    Event.embed [q] ∈ (process_single_question env st q).2.2 := by
  simp only [process_single_question, h]
  cases hge : env.getEmbeddings [q] with
  | error e => simp
  | ok l =>
    cases l with
    | nil => simp
    | cons qe tl =>
      cases hs : env.search qe 2 with
      | error e => simp [hs]
      | ok rs =>
        cases rs with
        | nil => simp [hs]
        | cons r rs =>
          cases hga : generate_answer env q (r :: rs) with
          | error e => simp [hs, hga]
          | ok resp => simp [hs, hga]

theorem ensure_cache_hit (env : Env) (stg : Settings) (st : EngineState) (url : String)
    (h : (st.document_cache.lookup url).isSome) :
    ensure_document_processed env stg st url = (.ok (), st, []) := by
  obtain ⟨v, hv⟩ := Option.isSome_iff_exists.mp h
  simp [ensure_document_processed, hv]

theorem ensure_error_state (env : Env) (stg : Settings) (st : EngineState)
    (url : String) :
    (∀ e, (ensure_document_processed env stg st url).1 = Except.error e →
      (ensure_document_processed env stg st url).2.1 = st) := by
  intro e he
  simp only [ensure_document_processed] at he ⊢
  cases hl : st.document_cache.lookup url with
  | some v => simp [hl] at he
  | none =>
    simp only [hl] at he ⊢
    cases hpd : process_document env stg url with
    | mk pres ev1 =>
      cases pres with
      | error e2 => simp [hpd] at he ⊢
      | ok chunks =>
        simp only [hpd] at he ⊢
        cases hge : env.getEmbeddings (chunks.map (fun c => c.content)) with
        | error e3 => simp [hge] at he ⊢
        | ok embeddings =>
          simp only [hge] at he ⊢
          cases had : env.addDocuments (assignEmbeddings chunks embeddings) with
          | error e4 => simp [had] at he ⊢
          | ok u => simp [had] at he

theorem retryCall_const_fail (f : Nat → Except String GenResponse) (e : String)
    (h : ∀ i, f i = .error e) :
    ∀ (n i0 : Nat), 1 ≤ n → retryCall f i0 n = .error e := by
  intro n
  induction n with
  | zero => intro i0 h1; omega
  | succ n ih =>
    intro i0 _
    cases n with
    | zero => simpa [retryCall] using h i0
    | succ m =>
      have hstep : retryCall f i0 (m + 2) =
          match f i0 with
          | .ok v => .ok v
          | .error _ => retryCall f (i0 + 1) (m + 1) := rfl
      rw [hstep, h i0]
      exact ih (i0 + 1) (by omega)

theorem generate_answer_const_fail (env : Env) (q : String)
    (ctx : List SearchResult) (e : String)
    (h : ∀ i, env.llmAttempt q ctx i = .error e) :
    generate_answer env q ctx = .error e :=
  retryCall_const_fail (env.llmAttempt q ctx) e h 5 0 (by omega)

theorem download_ok (env : Env) (stg : Settings) (url : String)
    (resp : HttpResponse) (hhttp : env.httpGet url = .ok resp)
    (hlo : 200 ≤ resp.status) (hhi : resp.status < 300)
    (hcl : resp.contentLength.getD 0 ≤ stg.max_file_size_bytes) :
    download_document env stg url = (.ok resp.content, [.download url]) := by
  simp only [download_document, hhttp]
  rw [if_neg, if_neg] <;>
    (try simp only [Bool.or_eq_true, decide_eq_true_eq, not_or]) <;> omega

theorem process_document_pdf_ok (env : Env) (stg : Settings) (url : String)
    (resp : HttpResponse) (txt : String)
    (hhttp : env.httpGet url = .ok resp)
    (hlo : 200 ≤ resp.status) (hhi : resp.status < 300)
    (hcl : resp.contentLength.getD 0 ≤ stg.max_file_size_bytes)
    (hfn : pyEndsWith (pyLower ((splitSlash (env.urlPath url)).getLastD "")) ".pdf" = true)
    (hx : env.extractPdf resp.content = .ok txt) :
    process_document env stg url =
      (.ok (create_chunks stg.CHUNK_SIZE stg.CHUNK_OVERLAP
          { source_url := url, document_type := "pdf",
            filename := pyLower ((splitSlash (env.urlPath url)).getLastD "") }
          (pySplit (clean_text txt))),
       [.download url, .extract "pdf"]) := by
  simp only [process_document, download_ok env stg url resp hhttp hlo hhi hcl,
    hfn, if_true, hx]
  rfl

/-! ## Concrete instances for witnesses and counterexamples -/

/-- A concrete metadata record. -/
def m0 : DocMeta := { source_url := "u", document_type := "text", filename := "f" }

/-- The engine's initial state: both caches empty. -/
def st0 : EngineState := { document_cache := [], answer_cache := [] }

/-- A state in which URL u is already ingested. -/
def stCached : EngineState :=
  { document_cache := [("u", 1, 0)], answer_cache := [] }

/-- A concrete environment: the download fails, every other collaborator
answers plainly. -/
def baseEnv : Env :=
  { httpGet := fun _ => .error "network unreachable"
    urlPath := fun _ => ""
    extractPdf := fun _ => .ok ""
    extractDocx := fun _ => .ok ""
    extractHtml := fun _ => .ok ""
    decodeUtf8 := fun _ => ""
    getEmbeddings := fun ts => .ok (ts.map (fun _ => [1]))
    addDocuments := fun _ => .ok ()
    search := fun _ _ => .ok [{ content := "c", score := 1, meta := [] }]
    llmAttempt := fun _ _ _ => .ok [("answer", "A")]
    hashF := fun _ => 0
    now := 7 }

/-! ## Claims C1 and C2 -/

/-- C1: for every document URL and question list, process_query returns one
answer string per input question, of the same length and in the same order,
on the success path (each answer is the one computed for the question at
that position, under the state left by the preceding questions) and on
every ingestion-failure path (each position carries the fallback string). -/
theorem claim_C1 (env : Env) (stg : Settings) (st : EngineState)
    (url : String) (questions : List String) :
    (process_query env stg st url questions).1.length = questions.length ∧
    (∀ e, (ensure_document_processed env stg st url).1 = Except.error e →
      (process_query env stg st url questions).1 =
        questions.map (fun _ => "Error processing question: " ++ e)) ∧
    (∀ u, (ensure_document_processed env stg st url).1 = Except.ok u →
      ∀ i, i < questions.length →
        (process_query env stg st url questions).1.getD i "" =
          (process_single_question env
            (processQuestions env (ensure_document_processed env stg st url).2.1
              (questions.take i)).2.1
            (questions.getD i "")).1) := by
  cases h : ensure_document_processed env stg st url with
  | mk r rest =>
    cases rest with
    | mk st1 ev =>
      cases r with
      | error e =>
        refine ⟨?_, ?_, ?_⟩
        · simp [process_query, h]
        · intro e2 he2
          have he3 : e = e2 := by simpa using he2
          subst he3
          simp [process_query, h]
        · intro u hu
          simp at hu
      | ok u =>
        refine ⟨?_, ?_, ?_⟩
        · simp [process_query, h, processQuestions_length]
        · intro e2 he2
          simp at he2
        · intro u2 hu2 i hi
          simp only [process_query, h]
          exact processQuestions_getD env questions st1 i hi

/-- Closed instance of C1 on a cached URL with two questions. -/
theorem claim_C1_witness :
    (process_query baseEnv settings stCached "u" ["a", "b"]).1.length = 2 ∧
    (process_query baseEnv settings stCached "u" ["a", "b"]).1.getD 0 "" =
      (process_single_question baseEnv
        (processQuestions baseEnv
          (ensure_document_processed baseEnv settings stCached "u").2.1
          (["a", "b"].take 0)).2.1 "a").1 := by
  refine ⟨(claim_C1 baseEnv settings stCached "u" ["a", "b"]).1, ?_⟩
  have h := (claim_C1 baseEnv settings stCached "u" ["a", "b"]).2.2 ()
    (by rfl) 0 (by decide)
  simpa using h

/-- C2: whenever document ingestion fails, process_query does not propagate
the failure; it returns the fallback error string once per input question. -/
theorem claim_C2 (env : Env) (stg : Settings) (st : EngineState) (url : String)
    (questions : List String) (e : String)
    (h : (ensure_document_processed env stg st url).1 = Except.error e) :
    (process_query env stg st url questions).1 =
      questions.map (fun _ => "Error processing question: " ++ e) ∧
    (process_query env stg st url questions).1.length = questions.length := by
  cases h2 : ensure_document_processed env stg st url with
  | mk r rest =>
    cases rest with
    | mk st1 ev =>
      rw [h2] at h
      cases r with
      | error e2 =>
        cases h
        constructor
        · simp [process_query, h2]
        · simp [process_query, h2]
      | ok u => cases h

/-- Closed instance of C2: the download fails and both questions receive
the fallback string. -/
theorem claim_C2_witness :
    (ensure_document_processed baseEnv settings st0 "u").1 =
      Except.error "network unreachable" ∧
    (process_query baseEnv settings st0 "u" ["a", "b"]).1 =
      ["Error processing question: network unreachable",
       "Error processing question: network unreachable"] := by
  refine ⟨rfl, ?_⟩
  have h := (claim_C2 baseEnv settings st0 "u" ["a", "b"]
    "network unreachable" rfl).1
  simpa using h

/-! ## Claim C3 -/

/-- An environment whose generator fails on every attempt. -/
def envGenFail : Env :=
  { baseEnv with
    httpGet := fun _ => .ok { status := 200, contentLength := some 1, content := [0] }
    llmAttempt := fun _ _ _ => .error "boom" }

/-- C3 counterexample: with the generator failing on all five retry
attempts, the per-question operation returns "Error: boom", not the
sentinel "Unable to generate answer", and nothing is stored in the answer
cache. -/
theorem claim_C3_counterexample :
    (process_single_question envGenFail st0 "q").1 = "Error: boom" ∧
    (process_single_question envGenFail st0 "q").1 ≠ "Unable to generate answer" ∧
    (process_single_question envGenFail st0 "q").2.1.answer_cache = [] := by
  refine ⟨rfl, by decide, rfl⟩

/-- C3 amended: when the generator call fails after its 5-attempt retry
budget, the per-question operation returns the string "Error: " followed by
the failure message (never the sentinel "Unable to generate answer") and
does not raise, but this fallback is NOT stored in the Answer Cache; the
sentinel is merely the default read of a successful generator response
lacking the answer field, and only answers resolved on the non-exception
path are stored in the Answer Cache before being returned. -/
theorem claim_C3_amended (env : Env) (st : EngineState) (q : String)
    (qe : Emb) (tl : List Emb) (r : SearchResult) (rs : List SearchResult)
    (hmiss : st.answer_cache.lookup (env.hashF q) = none)
    (hge : env.getEmbeddings [q] = .ok (qe :: tl))
    (hs : env.search qe 2 = .ok (r :: rs)) :
    (∀ e, (∀ i, env.llmAttempt q (r :: rs) i = .error e) →
      (process_single_question env st q).1 = "Error: " ++ e ∧
      (process_single_question env st q).2.1.answer_cache = st.answer_cache) ∧
    (∀ resp, generate_answer env q (r :: rs) = .ok resp →
      (process_single_question env st q).1 =
        dictGet resp "answer" "Unable to generate answer" ∧
      (process_single_question env st q).2.1.answer_cache =
        (env.hashF q, (process_single_question env st q).1) :: st.answer_cache) := by
  constructor
  · intro e hall
    have hga : generate_answer env q (r :: rs) = .error e :=
      generate_answer_const_fail env q (r :: rs) e hall
    simp [process_single_question, hmiss, hge, hs, hga]
  · intro resp hga
    simp [process_single_question, hmiss, hge, hs, hga]

/-- Closed instance of C3 amended: the failing-generator branch at
envGenFail, and the success branch at baseEnv where the answer "A" is
cached. -/
theorem claim_C3_amended_witness :
    ((process_single_question envGenFail st0 "q").1 = "Error: boom" ∧
      (process_single_question envGenFail st0 "q").2.1.answer_cache =
        st0.answer_cache) ∧
    ((process_single_question baseEnv st0 "q").1 =
        dictGet [("answer", "A")] "answer" "Unable to generate answer" ∧
      (process_single_question baseEnv st0 "q").2.1.answer_cache =
        (baseEnv.hashF "q", (process_single_question baseEnv st0 "q").1) ::
          st0.answer_cache) := by
  constructor
  · exact (claim_C3_amended envGenFail st0 "q" [1] []
      { content := "c", score := 1, meta := [] } [] rfl rfl rfl).1
      "boom" (fun i => rfl)
  · exact (claim_C3_amended baseEnv st0 "q" [1] []
      { content := "c", score := 1, meta := [] } [] rfl rfl rfl).2
      [("answer", "A")] rfl

/-! ## Claim C10 -/

/-- C10: when per-question processing hits an exception (embedding failure,
empty embedding batch, search failure, or generator failure), the Answer
Cache is left unchanged and the returned Error string is not cached, so a
second call with the identical question re-invokes the Embedder (it emits a
fresh embed event rather than answering from cache); only the non-exception
path — the no-results sentinel and generator answers — stores into the
Answer Cache. -/
theorem claim_C10 (env : Env) (st : EngineState) (q : String)
    (hmiss : st.answer_cache.lookup (env.hashF q) = none) :
    (∀ e, env.getEmbeddings [q] = .error e →
      (process_single_question env st q).1 = "Error: " ++ e ∧
      (process_single_question env st q).2.1.answer_cache = st.answer_cache ∧
      Event.embed [q] ∈
        (process_single_question env (process_single_question env st q).2.1 q).2.2) ∧
    (∀ qe tl e, env.getEmbeddings [q] = .ok (qe :: tl) →
      env.search qe 2 = .error e →
      (process_single_question env st q).1 = "Error: " ++ e ∧
      (process_single_question env st q).2.1.answer_cache = st.answer_cache ∧
      Event.embed [q] ∈
        (process_single_question env (process_single_question env st q).2.1 q).2.2) ∧
    (∀ qe tl r rs e, env.getEmbeddings [q] = .ok (qe :: tl) →
      env.search qe 2 = .ok (r :: rs) →
      generate_answer env q (r :: rs) = .error e →
      (process_single_question env st q).1 = "Error: " ++ e ∧
      (process_single_question env st q).2.1.answer_cache = st.answer_cache ∧
      Event.embed [q] ∈
        (process_single_question env (process_single_question env st q).2.1 q).2.2) ∧
    (∀ qe tl, env.getEmbeddings [q] = .ok (qe :: tl) →
      env.search qe 2 = .ok [] →
      (process_single_question env st q).1 =
        "Information not available in the document" ∧
      (process_single_question env st q).2.1.answer_cache =
        (env.hashF q, (process_single_question env st q).1) :: st.answer_cache) ∧
    (∀ qe tl r rs resp, env.getEmbeddings [q] = .ok (qe :: tl) →
      env.search qe 2 = .ok (r :: rs) →
      generate_answer env q (r :: rs) = .ok resp →
      (process_single_question env st q).2.1.answer_cache =
        (env.hashF q, (process_single_question env st q).1) :: st.answer_cache) := by
  refine ⟨?_, ?_, ?_, ?_, ?_⟩
  · intro e hge
    have hres : process_single_question env st q =
        ("Error: " ++ e, st, [.embed [q]]) := by
      simp [process_single_question, hmiss, hge]
    refine ⟨by rw [hres], by rw [hres], ?_⟩
    rw [hres]
    exact psq_cache_miss_embeds env st q hmiss
  · intro qe tl e hge hs
    have hres : process_single_question env st q =
        ("Error: " ++ e, st, [.embed [q], .searchEv 2]) := by
      simp [process_single_question, hmiss, hge, hs]
    refine ⟨by rw [hres], by rw [hres], ?_⟩
    rw [hres]
    exact psq_cache_miss_embeds env st q hmiss
  · intro qe tl r rs e hge hs hga
    have hres : process_single_question env st q =
        ("Error: " ++ e, st, [.embed [q], .searchEv 2, .generate q]) := by
      simp [process_single_question, hmiss, hge, hs, hga]
    refine ⟨by rw [hres], by rw [hres], ?_⟩
    rw [hres]
    exact psq_cache_miss_embeds env st q hmiss
  · intro qe tl hge hs
    constructor <;> simp [process_single_question, hmiss, hge, hs]
  · intro qe tl r rs resp hge hs hga
    simp [process_single_question, hmiss, hge, hs, hga]

/-- An environment whose embedding provider fails. -/
def envEmbedFail : Env :=
  { baseEnv with getEmbeddings := fun _ => .error "embed down" }

/-- An environment whose index returns no results. -/
def envNoResults : Env :=
  { baseEnv with search := fun _ _ => .ok [] }

/-- Closed instance of C10: an embedding failure leaves the cache empty and
the retried call embeds again; an empty search result stores the sentinel. -/
theorem claim_C10_witness :
    ((process_single_question envEmbedFail st0 "q").1 = "Error: embed down" ∧
      (process_single_question envEmbedFail st0 "q").2.1.answer_cache =
        st0.answer_cache ∧
      Event.embed ["q"] ∈
        (process_single_question envEmbedFail
          (process_single_question envEmbedFail st0 "q").2.1 "q").2.2) ∧
    ((process_single_question envNoResults st0 "q").1 =
        "Information not available in the document" ∧
      (process_single_question envNoResults st0 "q").2.1.answer_cache =
        (envNoResults.hashF "q", (process_single_question envNoResults st0 "q").1) ::
          st0.answer_cache) := by
  constructor
  · exact (claim_C10 envEmbedFail st0 "q" rfl).1 "embed down" rfl
  · exact (claim_C10 envNoResults st0 "q" rfl).2.2.2.1 [1] [] rfl rfl

/-! ## Claim C7 -/

theorem ensure_document_cache_cases (env : Env) (stg : Settings)
    (st : EngineState) (url : String) :
    (ensure_document_processed env stg st url).2.1 = st ∨
    (st.document_cache.lookup url = none ∧ ∃ n,
      (ensure_document_processed env stg st url).2.1 =
        { st with document_cache := (url, n, env.now) :: st.document_cache }) := by
  simp only [ensure_document_processed]
  cases hl : st.document_cache.lookup url with
  | some v => left; rfl
  | none =>
    cases hpd : process_document env stg url with
    | mk pres ev1 =>
      cases pres with
      | error e2 => left; rfl
      | ok chunks =>
        cases hge : env.getEmbeddings (chunks.map (fun c => c.content)) with
        | error e3 => simp [hge]
        | ok embeddings =>
          cases had : env.addDocuments (assignEmbeddings chunks embeddings) with
          | error e4 => simp [hge, had]
          | ok u =>
            simp only [hge, had]
            exact Or.inr ⟨by trivial, chunks.length, rfl⟩

theorem process_query_lookup_preserved (env : Env) (stg : Settings)
    (st : EngineState) (url : String) (qs : List String) (k : String)
    (v : Nat × Nat) (hk : st.document_cache.lookup k = some v) :
    (process_query env stg st url qs).2.1.document_cache.lookup k = some v := by
  have hdc : (process_query env stg st url qs).2.1.document_cache =
      (ensure_document_processed env stg st url).2.1.document_cache := by
    cases h : ensure_document_processed env stg st url with
    | mk r rest =>
      cases rest with
      | mk st1 ev =>
        cases r with
        | error e => simp [process_query, h]
        | ok u => simp [process_query, h, processQuestions_document_cache]
  rw [hdc]
  rcases ensure_document_cache_cases env stg st url with h | ⟨hnone, n, h⟩
  · rw [h]; exact hk
  · rw [h]
    have hne : (k == url) = false := by
      by_cases hku : k = url
      · subst hku; rw [hk] at hnone; cases hnone
      · exact beq_false_of_ne hku
    simpa [List.lookup, hne] using hk

/-- C7 counterexample: with URL u already cached, a process call with a
fresh question still invokes the Embedder (the trace contains an embed
event for that question), so it is not the case that none of the
Downloader, Extractor, Embedder, or Index-add operations is invoked. -/
theorem claim_C7_counterexample :
    (stCached.document_cache.lookup "u").isSome = true ∧
    Event.embed ["a"] ∈ (process_query baseEnv settings stCached "u" ["a"]).2.2 := by
  exact ⟨rfl, by decide⟩

/-- C7 amended: a process call on a cached URL short-circuits ingestion
entirely — the ensure step returns at once with no events, so the trace
contains no download, extract, or index-add event and no chunk-batch
embedding: every event is a single-question embed, a search, or a generate
for one of the input questions (the Embedder is still invoked once per
uncached question).  Moreover no operation removes or replaces a Document
Cache entry within a process run. -/
theorem claim_C7_amended (env : Env) (stg : Settings) (st : EngineState)
    (url : String) (qs : List String)
    (h : (st.document_cache.lookup url).isSome) :
    ensure_document_processed env stg st url = (.ok (), st, []) ∧
    (∀ ev ∈ (process_query env stg st url qs).2.2,
      ∃ q ∈ qs, ev = Event.embed [q] ∨ ev = Event.searchEv 2 ∨
        ev = Event.generate q) ∧
    (∀ k v, st.document_cache.lookup k = some v →
      (process_query env stg st url qs).2.1.document_cache.lookup k = some v) := by
  have hhit := ensure_cache_hit env stg st url h
  refine ⟨hhit, ?_, ?_⟩
  · intro ev hev
    simp only [process_query, hhit, List.nil_append] at hev
    exact processQuestions_events env qs st ev hev
  · intro k v hk
    exact process_query_lookup_preserved env stg st url qs k v hk

/-- Closed instance of C7 amended at a cached URL with one question. -/
theorem claim_C7_amended_witness :
    ensure_document_processed baseEnv settings stCached "u" =
      (.ok (), stCached, []) ∧
    (∀ ev ∈ (process_query baseEnv settings stCached "u" ["a"]).2.2,
      ∃ q ∈ ["a"], ev = Event.embed [q] ∨ ev = Event.searchEv 2 ∨
        ev = Event.generate q) ∧
    (process_query baseEnv settings stCached "u" ["a"]).2.1.document_cache.lookup "u" =
      some (1, 0) := by
  have h := claim_C7_amended baseEnv settings stCached "u" ["a"] rfl
  exact ⟨h.1, h.2.1, h.2.2 "u" (1, 0) rfl⟩

/-! ## Forward characterizations of ingestion -/

theorem ensure_fail_pd (env : Env) (stg : Settings) (st : EngineState)
    (url : String) (e : String) (ev1 : List Event)
    (hnone : st.document_cache.lookup url = none)
    (hpd : process_document env stg url = (.error e, ev1)) :
    ensure_document_processed env stg st url = (.error e, st, ev1) := by
  simp [ensure_document_processed, hnone, hpd]

theorem ensure_fail_embed (env : Env) (stg : Settings) (st : EngineState)
    (url : String) (chunks : List DocumentChunk) (ev1 : List Event) (e : String)
    (hnone : st.document_cache.lookup url = none)
    (hpd : process_document env stg url = (.ok chunks, ev1))
    (hge : env.getEmbeddings (chunks.map (fun c => c.content)) = .error e) :
    ensure_document_processed env stg st url =
      (.error e, st, ev1 ++ [.embed (chunks.map (fun c => c.content))]) := by
  simp [ensure_document_processed, hnone, hpd, hge]

theorem ensure_fail_add (env : Env) (stg : Settings) (st : EngineState)
    (url : String) (chunks : List DocumentChunk) (embeddings : List Emb)
    (ev1 : List Event) (e : String)
    (hnone : st.document_cache.lookup url = none)
    (hpd : process_document env stg url = (.ok chunks, ev1))
    (hge : env.getEmbeddings (chunks.map (fun c => c.content)) = .ok embeddings)
    (had : env.addDocuments (assignEmbeddings chunks embeddings) = .error e) :
    ensure_document_processed env stg st url =
      (.error e, st, ev1 ++ [.embed (chunks.map (fun c => c.content)),
        .indexAdd (assignEmbeddings chunks embeddings).length]) := by
  simp [ensure_document_processed, hnone, hpd, hge, had]

theorem ensure_ok_commit (env : Env) (stg : Settings) (st : EngineState)
    (url : String) (chunks : List DocumentChunk) (embeddings : List Emb)
    (ev1 : List Event)
    (hnone : st.document_cache.lookup url = none)
    (hpd : process_document env stg url = (.ok chunks, ev1))
    (hge : env.getEmbeddings (chunks.map (fun c => c.content)) = .ok embeddings)
    (had : env.addDocuments (assignEmbeddings chunks embeddings) = .ok ()) :
    ensure_document_processed env stg st url =
      (.ok (),
       { st with document_cache := (url, chunks.length, env.now) :: st.document_cache },
       ev1 ++ [.embed (chunks.map (fun c => c.content)),
         .indexAdd (assignEmbeddings chunks embeddings).length]) := by
  simp [ensure_document_processed, hnone, hpd, hge, had]

/-! ## Claim C8 -/

/-- C8: the Document Cache entry is an all-or-nothing commit — if ingestion
fails at any step, the engine state (and hence the Document Cache) is left
exactly as it was; if ingestion succeeds for a previously uncached URL,
then the chunks were produced, every chunk text was embedded, the chunks
with embeddings attached were added to the Index, and only then was the
entry (url, chunk count, timestamp) recorded. -/
theorem claim_C8 (env : Env) (stg : Settings) (st : EngineState) (url : String) :
    (∀ e, (ensure_document_processed env stg st url).1 = Except.error e →
      (ensure_document_processed env stg st url).2.1 = st) ∧
    (st.document_cache.lookup url = none →
      ∀ u, (ensure_document_processed env stg st url).1 = Except.ok u →
      ∃ chunks embeddings ev1,
        process_document env stg url = (.ok chunks, ev1) ∧
        env.getEmbeddings (chunks.map (fun c => c.content)) = .ok embeddings ∧
        env.addDocuments (assignEmbeddings chunks embeddings) = .ok () ∧
        (ensure_document_processed env stg st url).2.1.document_cache =
          (url, chunks.length, env.now) :: st.document_cache) := by
  refine ⟨ensure_error_state env stg st url, ?_⟩
  intro hnone u hok
  cases hpd : process_document env stg url with
  | mk pres ev1 =>
    cases pres with
    | error e2 =>
      rw [ensure_fail_pd env stg st url e2 ev1 hnone hpd] at hok
      cases hok
    | ok chunks =>
      cases hge : env.getEmbeddings (chunks.map (fun c => c.content)) with
      | error e3 =>
        rw [ensure_fail_embed env stg st url chunks ev1 e3 hnone hpd hge] at hok
        cases hok
      | ok embeddings =>
        cases had : env.addDocuments (assignEmbeddings chunks embeddings) with
        | error e4 =>
          rw [ensure_fail_add env stg st url chunks embeddings ev1 e4
            hnone hpd hge had] at hok
          cases hok
        | ok u2 =>
          have had2 : env.addDocuments (assignEmbeddings chunks embeddings) =
              .ok () := by cases u2; exact had
          rw [ensure_ok_commit env stg st url chunks embeddings ev1
            hnone hpd hge had2]
          exact ⟨chunks, embeddings, ev1, rfl, hge, had2, rfl⟩

/-- An environment that ingests a short plain-text document successfully. -/
def envOkDoc : Env :=
  { baseEnv with
    httpGet := fun _ => .ok { status := 200, contentLength := some 2, content := [104, 105] }
    decodeUtf8 := fun _ => "hi there" }

/-- Closed instance of C8: a successful ingestion commits the cache entry
with the chunk count, and a failed one (download refused) leaves the state
untouched. -/
theorem claim_C8_witness :
    ((ensure_document_processed baseEnv settings st0 "u").2.1 = st0) ∧
    (∃ chunks embeddings ev1,
      process_document envOkDoc settings "u" = (.ok chunks, ev1) ∧
      envOkDoc.getEmbeddings (chunks.map (fun c => c.content)) = .ok embeddings ∧
      envOkDoc.addDocuments (assignEmbeddings chunks embeddings) = .ok () ∧
      (ensure_document_processed envOkDoc settings st0 "u").2.1.document_cache =
        ("u", chunks.length, envOkDoc.now) :: st0.document_cache) := by
  constructor
  · exact (claim_C8 baseEnv settings st0 "u").1 "network unreachable" rfl
  · have hensure := ensure_ok_commit envOkDoc settings st0 "u"
      (create_chunks 400 50
        { source_url := "u", document_type := "text", filename := "" }
        (pySplit (clean_text "hi there")))
      (((create_chunks 400 50
        { source_url := "u", document_type := "text", filename := "" }
        (pySplit (clean_text "hi there"))).map (fun c => c.content)).map
          (fun _ => [1]))
      [.download "u"] rfl rfl rfl rfl
    exact (claim_C8 envOkDoc settings st0 "u").2 rfl () (by rw [hensure])

/-! ## Claim C9 -/

/-- An environment returning a 2xx response whose body exceeds the size
limit but which carries no content-length header. -/
def envBig : Env :=
  { baseEnv with
    httpGet := fun _ => .ok
      { status := 200, contentLength := none,
        content := List.replicate 10485761 0 } }

/-- C9 counterexample: a response whose body is 10485761 bytes (one over
the 10 MB limit) but has no content-length header is returned in full by
download_document instead of raising. -/
theorem claim_C9_counterexample :
    download_document envBig settings "u" =
      (.ok (List.replicate 10485761 0), [Event.download "u"]) ∧
    settings.max_file_size_bytes < (List.replicate 10485761 (0 : Nat)).length := by
  constructor
  · rfl
  · rw [List.length_replicate]
    norm_num [settings, Settings.max_file_size_bytes]

/-- C9 amended: download_document raises on network failure and on non-2xx
status, and enforces the configured maximum size only against the
content-length header (0 when the header is absent): a header value above
the limit raises, while any body whose header is missing or not above the
limit is returned, even if the body itself exceeds the limit. -/
theorem claim_C9_amended (env : Env) (stg : Settings) (url : String) :
    (∀ e, env.httpGet url = .error e →
      (download_document env stg url).1 = .error e) ∧
    (∀ resp, env.httpGet url = .ok resp →
      (resp.status < 200 ∨ 300 ≤ resp.status) →
      (download_document env stg url).1 = .error "HTTP status error") ∧
    (∀ resp, env.httpGet url = .ok resp →
      200 ≤ resp.status → resp.status < 300 →
      stg.max_file_size_bytes < resp.contentLength.getD 0 →
      (download_document env stg url).1 =
        .error "File size exceeds maximum allowed size") ∧
    (∀ resp, env.httpGet url = .ok resp →
      200 ≤ resp.status → resp.status < 300 →
      resp.contentLength.getD 0 ≤ stg.max_file_size_bytes →
      (download_document env stg url).1 = .ok resp.content) := by
  refine ⟨?_, ?_, ?_, ?_⟩
  · intro e he
    simp [download_document, he]
  · intro resp hresp hbad
    have hb : (decide (resp.status < 200) || decide (300 ≤ resp.status)) = true := by
      simp only [Bool.or_eq_true, decide_eq_true_eq]
      omega
    simp [download_document, hresp, hb]
  · intro resp hresp hlo hhi hcl
    have hb : (decide (resp.status < 200) || decide (300 ≤ resp.status)) = false := by
      simp only [Bool.or_eq_false_iff, decide_eq_false_iff_not]
      omega
    simp [download_document, hresp, hb, hcl]
  · intro resp hresp hlo hhi hcl
    rw [download_ok env stg url resp hresp hlo hhi hcl]

/-- Closed instance of C9 amended: the oversized-header case raises and the
missing-header case returns the body. -/
theorem claim_C9_amended_witness :
    (download_document baseEnv settings "u").1 =
      .error "network unreachable" ∧
    (download_document envBig settings "u").1 =
      .ok (List.replicate 10485761 0) := by
  constructor
  · exact (claim_C9_amended baseEnv settings "u").1 "network unreachable" rfl
  · exact (claim_C9_amended envBig settings "u").2.2.2
      { status := 200, contentLength := none, content := List.replicate 10485761 0 }
      rfl (by norm_num) (by norm_num) (by norm_num [settings, Settings.max_file_size_bytes])

/-! ## Claims C4 and C5 -/

theorem replicate_words_ne_empty (n : Nat) :
    ∀ w ∈ List.replicate n "w", w ≠ "" := by
  intro w hw
  rw [List.eq_of_mem_replicate hw]
  decide

/-- C4 counterexample: a 3851-word text chunks into 12 chunks — more than
the claimed fixed ceiling of 10, so no chunk-count cap exists. -/
theorem claim_C4_counterexample :
    (create_chunks 400 50 m0 (List.replicate 3851 "w")).length = 12 ∧
    ¬ (create_chunks 400 50 m0 (List.replicate 3851 "w")).length ≤ 10 := by
  have h := create_chunks_length 400 50 m0 (List.replicate 3851 "w")
    (by omega) (replicate_words_ne_empty 3851)
  rw [List.length_replicate] at h
  norm_num at h
  exact ⟨h, by omega⟩

/-- C4 amended: the chunker caps nothing; windows advance by chunk_size -
chunk_overlap (350 under the configured 400/50), so a text of L nonempty
words yields ceil(L / (chunk_size - chunk_overlap)) chunks, and chunk k
contains the space-joined window of chunk_size words starting at word
k * (chunk_size - chunk_overlap) — consecutive chunks overlap, so
concatenating chunk contents repeats the overlapped words rather than
reproducing the original sequence. -/
theorem claim_C4_amended (cs co : Nat) (meta : DocMeta) (words : List String)
    (hco : co < cs) (hw : ∀ w ∈ words, w ≠ "") :
    (create_chunks cs co meta words).length =
      (words.length + (cs - co) - 1) / (cs - co) ∧
    (∀ k, k < (create_chunks cs co meta words).length →
      (create_chunks cs co meta words).getD k dummyChunk =
        { content := joinWords ((words.drop (k * (cs - co))).take cs),
          meta := meta, chunk_index := k, start_word := k * (cs - co),
          end_word := min (k * (cs - co) + cs) words.length }) := by
  refine ⟨create_chunks_length cs co meta words hco hw, ?_⟩
  intro k hk
  rw [create_chunks_getD cs co meta words hco hw k hk]
  rfl

/-- Closed instance of C4 amended on a three-word text. -/
theorem claim_C4_amended_witness :
    (create_chunks 400 50 m0 ["a", "b", "c"]).length = 1 ∧
    (create_chunks 400 50 m0 ["a", "b", "c"]).getD 0 dummyChunk =
      { content := "a b c", meta := m0, chunk_index := 0, start_word := 0,
        end_word := 3 } := by
  have h := claim_C4_amended 400 50 m0 ["a", "b", "c"] (by omega) (by decide)
  have hlen : (create_chunks 400 50 m0 ["a", "b", "c"]).length = 1 := by
    rw [h.1]; rfl
  refine ⟨hlen, ?_⟩
  have h2 := h.2 0 (by rw [hlen]; omega)
  rw [h2]
  decide

/-- C5 counterexample: text far below any minimum length threshold is
chunked successfully — empty text yields the empty chunk list and a
two-letter text yields one chunk; no ValidationError exists. -/
theorem claim_C5_counterexample :
    create_chunks 400 50 m0 (pySplit (clean_text "")) = [] ∧
    create_chunks 400 50 m0 (pySplit (clean_text "hi")) =
      [{ content := "hi", meta := m0, chunk_index := 0, start_word := 0,
         end_word := 1 }] := by
  constructor <;> decide

theorem create_chunks_nil (cs co : Nat) (meta : DocMeta) :
    create_chunks cs co meta [] = [] := rfl

/-- C5 amended: the chunker performs no minimum-length validation and
cannot fail: it totally maps any word list to a chunk list, an empty word
list maps to the empty chunk list, and process_document on a document whose
cleaned text splits to no words succeeds with zero chunks instead of
raising a ValidationError. -/
theorem claim_C5_amended (env : Env) (stg : Settings) (url : String)
    (resp : HttpResponse) (txt : String)
    (hhttp : env.httpGet url = .ok resp)
    (hlo : 200 ≤ resp.status) (hhi : resp.status < 300)
    (hcl : resp.contentLength.getD 0 ≤ stg.max_file_size_bytes)
    (hfn : pyEndsWith (pyLower ((splitSlash (env.urlPath url)).getLastD "")) ".pdf" = true)
    (hx : env.extractPdf resp.content = .ok txt)
    (hshort : pySplit (clean_text txt) = []) :
    (∀ meta, create_chunks stg.CHUNK_SIZE stg.CHUNK_OVERLAP meta [] = []) ∧
    (process_document env stg url).1 = .ok [] := by
  refine ⟨fun meta => create_chunks_nil _ _ meta, ?_⟩
  rw [process_document_pdf_ok env stg url resp txt hhttp hlo hhi hcl hfn hx,
    hshort]
  rw [create_chunks_nil]

/-- An environment serving a pdf URL whose extracted text is empty. -/
def envShortDoc : Env :=
  { baseEnv with
    httpGet := fun _ => .ok { status := 200, contentLength := some 1, content := [0] }
    urlPath := fun _ => "/d.pdf"
    extractPdf := fun _ => .ok "" }

/-- Closed instance of C5 amended: the empty extracted text ingests to ok
with zero chunks. -/
theorem claim_C5_amended_witness :
    create_chunks 400 50 m0 [] = [] ∧
    (process_document envShortDoc settings "u").1 = .ok [] := by
  have h := claim_C5_amended envShortDoc settings "u"
    { status := 200, contentLength := some 1, content := [0] } ""
    rfl (by norm_num) (by norm_num)
    (by norm_num [settings, Settings.max_file_size_bytes])
    (by decide) rfl (by decide)
  exact ⟨h.1 m0, h.2⟩

/-! ## Claim C6 -/

/-- C6 counterexample: an 850-word text with chunk size 400 (overlap 50)
produces 3 chunks with chunk_index 0,1,2, but the last chunk spans words
700..850 and so contains 150 words, not 50. -/
theorem claim_C6_counterexample :
    (create_chunks 400 50 m0 (List.replicate 850 "w")).length = 3 ∧
    (create_chunks 400 50 m0 (List.replicate 850 "w")).getD 2 dummyChunk =
      { content := joinWords (List.replicate 150 "w"), meta := m0,
        chunk_index := 2, start_word := 700, end_word := 850 } ∧
    (pySplit ((create_chunks 400 50 m0
      (List.replicate 850 "w")).getD 2 dummyChunk).content).length = 150 ∧
    (150 : Nat) ≠ 50 := by
  have hw := replicate_words_ne_empty 850
  have hlen := create_chunks_length 400 50 m0 (List.replicate 850 "w")
    (by omega) hw
  rw [List.length_replicate] at hlen
  norm_num at hlen
  have hget := create_chunks_getD 400 50 m0 (List.replicate 850 "w")
    (by omega) hw 2 (by rw [hlen]; omega)
  have hchunk : (create_chunks 400 50 m0 (List.replicate 850 "w")).getD 2 dummyChunk =
      { content := joinWords (List.replicate 150 "w"), meta := m0,
        chunk_index := 2, start_word := 700, end_word := 850 } := by
    rw [hget, mkChunk]
    norm_num [List.drop_replicate, List.take_replicate]
  refine ⟨hlen, hchunk, ?_, by omega⟩
  rw [hchunk, pySplit_join_replicate_w 150, List.length_replicate]

/-- The chunk metadata process_document builds for a pdf URL. -/
def pdfMeta (env : Env) (url : String) : DocMeta :=
  { source_url := url, document_type := "pdf",
    filename := pyLower ((splitSlash (env.urlPath url)).getLastD "") }

/-- C6 amended: for a not-yet-cached pdf URL whose extracted text cleans
and splits to exactly 850 words, with the configured chunk size 400 and
overlap 50, the chunker produces exactly 3 chunks with chunk_index 0,1,2,
the last spanning words 700..850 (150 words, not 50), and successful
ingestion records the URL in the Document Cache with chunk_count = 3. -/
theorem claim_C6_amended (env : Env) (st : EngineState) (url : String)
    (resp : HttpResponse) (txt : String) (embs : List Emb)
    (hmiss : st.document_cache.lookup url = none)
    (hhttp : env.httpGet url = .ok resp)
    (hlo : 200 ≤ resp.status) (hhi : resp.status < 300)
    (hcl : resp.contentLength.getD 0 ≤ settings.max_file_size_bytes)
    (hfn : pyEndsWith (pyLower ((splitSlash (env.urlPath url)).getLastD "")) ".pdf" = true)
    (hx : env.extractPdf resp.content = .ok txt)
    (hwords : pySplit (clean_text txt) = List.replicate 850 "w")
    (hge : env.getEmbeddings ((create_chunks 400 50 (pdfMeta env url)
      (List.replicate 850 "w")).map (fun c => c.content)) = .ok embs)
    (had : env.addDocuments (assignEmbeddings (create_chunks 400 50
      (pdfMeta env url) (List.replicate 850 "w")) embs) = .ok ()) :
    (create_chunks 400 50 (pdfMeta env url) (List.replicate 850 "w")).length = 3 ∧
    (∀ k, k < 3 → ((create_chunks 400 50 (pdfMeta env url)
      (List.replicate 850 "w")).getD k dummyChunk).chunk_index = k) ∧
    ((create_chunks 400 50 (pdfMeta env url)
      (List.replicate 850 "w")).getD 2 dummyChunk).start_word = 700 ∧
    ((create_chunks 400 50 (pdfMeta env url)
      (List.replicate 850 "w")).getD 2 dummyChunk).end_word = 850 ∧
    (ensure_document_processed env settings st url).1 = .ok () ∧
    (ensure_document_processed env settings st url).2.1.document_cache =
      (url, 3, env.now) :: st.document_cache := by
  have hw := replicate_words_ne_empty 850
  have hlen := create_chunks_length 400 50 (pdfMeta env url)
    (List.replicate 850 "w") (by omega) hw
  rw [List.length_replicate] at hlen
  norm_num at hlen
  have hpd := process_document_pdf_ok env settings url resp txt
    hhttp hlo hhi hcl hfn hx
  rw [hwords] at hpd
  have hpd2 : process_document env settings url =
      (.ok (create_chunks 400 50 (pdfMeta env url) (List.replicate 850 "w")),
       [.download url, .extract "pdf"]) := hpd
  have hcommit := ensure_ok_commit env settings st url
    (create_chunks 400 50 (pdfMeta env url) (List.replicate 850 "w"))
    embs [.download url, .extract "pdf"] hmiss hpd2 hge had
  refine ⟨hlen, ?_, ?_, ?_, ?_, ?_⟩
  · intro k hk
    rw [create_chunks_getD 400 50 (pdfMeta env url) (List.replicate 850 "w")
      (by omega) hw k (by rw [hlen]; omega)]
    rfl
  · rw [create_chunks_getD 400 50 (pdfMeta env url) (List.replicate 850 "w")
      (by omega) hw 2 (by rw [hlen]; omega)]
    rfl
  · rw [create_chunks_getD 400 50 (pdfMeta env url) (List.replicate 850 "w")
      (by omega) hw 2 (by rw [hlen]; omega), mkChunk]
    norm_num
  · rw [hcommit]
  · rw [hcommit, hlen]

/-- An environment serving a pdf URL whose extracted text is 850 copies of
the word w. -/
def envDoc850 : Env :=
  { baseEnv with
    httpGet := fun _ => .ok { status := 200, contentLength := some 1, content := [0] }
    urlPath := fun _ => "/d.pdf"
    extractPdf := fun _ => .ok (joinWords (List.replicate 850 "w")) }

set_option maxRecDepth 4000 in
/-- Closed instance of C6 amended at the 850-word document. -/
theorem claim_C6_amended_witness :
    (create_chunks 400 50 (pdfMeta envDoc850 "u") (List.replicate 850 "w")).length = 3 ∧
    ((create_chunks 400 50 (pdfMeta envDoc850 "u")
      (List.replicate 850 "w")).getD 2 dummyChunk).start_word = 700 ∧
    (ensure_document_processed envDoc850 settings st0 "u").1 = .ok () ∧
    (ensure_document_processed envDoc850 settings st0 "u").2.1.document_cache =
      ("u", 3, envDoc850.now) :: st0.document_cache := by
  have h := claim_C6_amended envDoc850 st0 "u"
    { status := 200, contentLength := some 1, content := [0] }
    (joinWords (List.replicate 850 "w"))
    (((create_chunks 400 50 (pdfMeta envDoc850 "u")
      (List.replicate 850 "w")).map (fun c => c.content)).map (fun _ => [1]))
    rfl rfl (by norm_num) (by norm_num)
    (by norm_num [settings, Settings.max_file_size_bytes])
    (by decide) rfl
    (by rw [pySplit_clean_join_replicate_w 850]) rfl rfl
  exact ⟨h.1, h.2.2.1, h.2.2.2.2.1, h.2.2.2.2.2⟩

end HackRx
